import Mathlib

/-
Verification of the competitor-site crawler (src/competitor-scrape.py).

The development shallowly embeds the crawler's data model and operations:

* Python string operations used by the script (str.startswith, the `in`
  substring test, str.replace, str.strip, slicing) are modelled as
  executable functions on `List Char` / `String`.
* HTML documents are modelled abstractly (`Html`): the fields record what
  BeautifulSoup extracts from a page (title element, first h1, the h2
  elements, the visible text nodes, and the href attributes of anchors
  inside nav/header/footer regions, in document order).
* External effects are oracles: `fetch` (requests.get: `none` models a
  transport error or a non-200 status, `some html` a 200 response),
  `saveOk` (whether save_page's filesystem writes succeed), `resolve`
  (urllib.parse.urljoin) and `rands` (the successive draws of
  random.random() underlying random.uniform).
* The while-loop of `crawl_site` (lines 128-160) is a well-founded
  recursion `crawlLoop` that also returns the ordered trace of observable
  events (dequeues, fetches, failures, saves, enqueues, sleeps).
-/

namespace Crawler

/-- Models Python `l.startswith(p)` on character lists: `firstMatches l p`
holds when `p` matches the start of `l`. -/
def firstMatches : List Char → List Char → Bool
  | _, [] => true
  | [], _ :: _ => false
  | a :: as, b :: bs => a == b && firstMatches as bs

/-- Models the Python substring test `p in l` on character lists. -/
def hasSub : List Char → List Char → Bool
  | [], p => p.isEmpty
  | a :: as, p => firstMatches (a :: as) p || hasSub as p

/-- Models Python `s.startswith(p)`. -/
def strStarts (s p : String) : Bool := firstMatches s.data p.data

/-- Models the Python substring test `p in s`. -/
def strHasSub (s p : String) : Bool := hasSub s.data p.data

/-- Fuel-indexed worker for `replaceL`; the fuel starts at the length of the
scanned list, which suffices because every step consumes at least one
character. -/
def replaceFuel (old new : List Char) : Nat → List Char → List Char
  | 0, l => l
  | _ + 1, [] => []
  | fuel + 1, a :: as =>
    if old ≠ [] ∧ firstMatches (a :: as) old then
      new ++ replaceFuel old new fuel (as.drop (old.length - 1))
    else
      a :: replaceFuel old new fuel as

/-- Models Python `s.replace(old, new)` (left-to-right, non-overlapping) for
a non-empty pattern `old`; the script only ever calls replace with non-empty
patterns. -/
def replaceL (l old new : List Char) : List Char := replaceFuel old new l.length l

/-- Models Python `s.replace(old, new)` on `String`. -/
def strReplace (s old new : String) : String := String.mk (replaceL s.data old.data new.data)

/-- Models Python `s.strip("/")`: removes leading and trailing `/` characters. -/
def stripSlashes (s : String) : String :=
  String.mk (((s.data.dropWhile (· == '/')).reverse.dropWhile (· == '/')).reverse)

/-- Models Python `s.strip()` (whitespace trimming at both ends), as used by
BeautifulSoup's strip=True text extraction. -/
def trimWs (l : List Char) : List Char :=
  ((l.dropWhile Char.isWhitespace).reverse.dropWhile Char.isWhitespace).reverse

/-- String form of `trimWs`, modelling Python `s.strip()`. -/
def pyStrip (s : String) : String := String.mk (trimWs s.data)

/-- Models Python slicing `s[:n]`. -/
def strTake (n : Nat) (s : String) : String := String.mk (s.data.take n)

/-- Models Python `a or b` on strings: `b` when `a` is empty (falsy), else `a`. -/
def pyOr (a b : String) : String := if a = "" then b else a

/-- Scans for the marker `://` and returns what follows it, as done by
urlparse when splitting off the scheme; `none` when the marker is absent. -/
def afterSchemeMarker : List Char → Option (List Char)
  | [] => none
  | a :: as =>
    if firstMatches (a :: as) [':', '/', '/'] then some (as.drop 2)
    else afterSchemeMarker as

/-- Models `urllib.parse.urlparse(url).netloc` for the URL shapes the script
produces (`scheme://host/...`): the characters between `://` and the next
`/`; empty when the URL has no `://`. -/
def netlocOf (url : String) : String :=
  match afterSchemeMarker url.data with
  | none => ""
  | some rest => String.mk (rest.takeWhile (· ≠ '/'))

/-- Embeds `safe_filename` (line 57-58): strip surrounding slashes, then
replace `/` by `_` and delete `:`, `?`, `&`, `=`. -/
def safe_filename (url : String) : String :=
  strReplace (strReplace (strReplace (strReplace (strReplace
    (stripSlashes url) "/" "_") ":" "") "?" "") "&" "") "="  ""

/-- Embeds the file-name derivation of `save_page` (line 64): strip the
scheme+domain from the URL, fall back to "home" when the result is the empty
string (Python `or`), then make it filesystem-safe. -/
def filename_base (domain url : String) : String :=
  safe_filename
    (pyOr (strReplace (strReplace url ("https://" ++ domain) "") ("http://" ++ domain) "") "home")

/-- Embeds the html artifact path built by `save_page` (lines 61-65). -/
def html_path (domain url : String) : String :=
  "competitor-scrape/raw_pages/" ++ domain ++ "/" ++ filename_base domain url ++ ".html"

/-- Embeds the json artifact path built by `save_page` (lines 61-66). -/
def json_path (domain url : String) : String :=
  "competitor-scrape/raw_pages/" ++ domain ++ "/" ++ filename_base domain url ++ ".json"

/-- Abstract model of a parsed HTML document, recording exactly what the
script reads out of BeautifulSoup: the title element's string (when the
document has a title element with a single string child), the first h1's
text, the texts of all h2 elements in document order, the visible text nodes
in document order, and the href attributes of the anchors that sit inside
nav, header or footer regions, in document order. -/
structure Html where
  title : Option String
  h1 : Option String
  h2s : List String
  textNodes : List String
  navHrefs : List String
deriving Repr, DecidableEq

/-- Record produced by `extract_info` (the per-page parse result). -/
structure PageInfo where
  title : String
  h1 : String
  h2s : List String
  text_snippet : String
deriving Repr, DecidableEq

/-- Joins character lists with a single space, modelling the separator
insertion of BeautifulSoup's get_text(separator=' '). -/
def joinSp : List (List Char) → List Char
  | [] => []
  | [x] => x
  | x :: y :: xs => x ++ ' ' :: joinSp (y :: xs)

/-- Models soup.get_text(separator=' ', strip=True) (line 79): every text
node is stripped, empty results are dropped, and the remainder is joined
with single spaces. -/
def soupGetText (html : Html) : String :=
  String.mk (joinSp ((html.textNodes.map (fun s => trimWs s.data)).filter (· ≠ [])))

/-- Embeds `extract_info` (lines 74-86). -/
def extract_info (html : Html) : PageInfo :=
  { title := match html.title with | some t => pyStrip t | none => ""
    h1 := match html.h1 with | some t => pyStrip t | none => ""
    h2s := (html.h2s.map pyStrip).take 5
    text_snippet := strTake 500 (soupGetText html) }

/-- Embeds `is_valid_link` (lines 88-95): the link must start with "http",
contain the domain as a substring (anywhere in the URL), and contain none of
the five banned substrings. -/
def is_valid_link (link domain : String) : Bool :=
  if ¬ strStarts link "http" then false
  else if ¬ strHasSub link domain then false
  else if ["#", "/wp-login", "/cart", "/checkout", "/account"].any (fun x => strHasSub link x)
    then false
  else true

/-- Embeds `get_nav_links` (lines 97-106): each nav-region href is resolved
against the base URL (`resolve` models urljoin) and kept when
`is_valid_link` accepts it; the Python set is modelled as first-occurrence
deduplication (the spec treats the resulting order as unspecified). -/
def get_nav_links (resolve : String → String → String) (html : Html)
    (base_url domain : String) : List String :=
  html.navHrefs.foldl
    (fun acc href =>
      let full := resolve base_url href
      if is_valid_link full domain ∧ full ∉ acc then acc ++ [full] else acc)
    []

/-- Models CPython's random.uniform(lo, hi), which computes
lo + (hi - lo) * random() from a draw `r` of random.random() in [0, 1]. -/
def randomUniform (lo hi r : Rat) : Rat := lo + (hi - lo) * r

/-- Observable events of one site's crawl, in program order: dequeuing a
frontier entry, issuing a network fetch, abandoning an entry on failure
(non-200 status, transport error, or a filesystem error in save_page),
completing a page (save_page succeeded), appending a link to the frontier,
and the politeness sleep of `random_delay`. -/
inductive Event where
  | dequeueE (url : String) (depth : Nat)
  | fetchE (url : String)
  | failE (url : String)
  | savedE (url : String)
  | enqueueE (url : String) (depth : Nat)
  | sleepE (d : Rat)
deriving Repr, DecidableEq

/-- Environment of one site's crawl: the external oracles together with the
parameters that stay fixed during the loop of `crawl_site`. -/
structure CrawlEnv where
  fetch : String → Option Html
  saveOk : String → Bool
  resolve : String → String → String
  rands : Nat → Rat
  base_url : String
  domain : String
  max_pages : Nat
  max_depth : Nat

/-- Mutable state of the while-loop of `crawl_site`: the visited set (as the
list of urls in insertion order), the FIFO frontier `to_visit`, the keys of
the topical map in insertion order, and the number of random draws consumed
so far. -/
structure CrawlState where
  visited : List String
  to_visit : List (String × Nat)
  labels : List String
  rand : Nat

/-- Models the topical-map insertion `topical_map[label] = []` (line 144):
every value is the empty list, so only the key set (in dict insertion order)
is tracked; inserting an existing key is a no-op. -/
def insertLabel (labels : List String) (l : String) : List String :=
  if l ∈ labels then labels else labels ++ [l]

/-- Embeds the enqueue loop of `crawl_site` (lines 150-152): each link not
already visited and not already queued is appended to `to_visit` at the
given depth; the membership test scans the current (mutating) queue, exactly
as the Python list comprehension does. Returns the new queue together with
the list of entries that were appended. -/
def enqueueGo (visited : List String) (d : Nat) :
    List String → List (String × Nat) → List (String × Nat) × List (String × Nat)
  | [], tv => (tv, [])
  | link :: ls, tv =>
    if link ∉ visited ∧ link ∉ tv.map Prod.fst then
      let r := enqueueGo visited d ls (tv ++ [(link, d)])
      (r.1, (link, d) :: r.2)
    else enqueueGo visited d ls tv

/-- Embeds the while-loop of `crawl_site` (lines 128-160). Each iteration
pops the head of the FIFO frontier; an already-visited url is skipped with
no fetch and no sleep; otherwise the url is fetched. A failed fetch (`none`:
non-200 status or transport error) or a failed save_page abandons the entry
without marking it visited, exactly as the Python code's `continue`
statements do. On full success the page is saved, its label inserted into
the topical map, its nav links enqueued at depth + 1 when depth < max_depth,
the url marked visited, and the worker sleeps for
random.uniform(1.5, 5.0). The returned list is the trace of events. -/
def crawlLoop (env : CrawlEnv) (st : CrawlState) : CrawlState × List Event :=
  match h : st.to_visit with
  | [] => (st, [])
  | (url, depth) :: rest =>
    if hp : st.visited.length < env.max_pages then
      if url ∈ st.visited then
        let r := crawlLoop env { st with to_visit := rest }
        (r.1, Event.dequeueE url depth :: r.2)
      else
        match env.fetch url with
        | none =>
          let r := crawlLoop env { st with to_visit := rest }
          (r.1, Event.dequeueE url depth :: Event.fetchE url :: Event.failE url :: r.2)
        | some html =>
          if env.saveOk url then
            let info := extract_info html
            let label := pyOr (pyOr info.h1 info.title) url
            let links :=
              if depth < env.max_depth then
                get_nav_links env.resolve html env.base_url env.domain
              else []
            let eq := enqueueGo st.visited (depth + 1) links rest
            let d := randomUniform (3 / 2) 5 (env.rands st.rand)
            let r := crawlLoop env
              { visited := st.visited ++ [url], to_visit := eq.1,
                labels := insertLabel st.labels label, rand := st.rand + 1 }
            (r.1, Event.dequeueE url depth :: Event.fetchE url :: Event.savedE url ::
              (eq.2.map (fun e => Event.enqueueE e.1 e.2) ++ Event.sleepE d :: r.2))
          else
            let r := crawlLoop env { st with to_visit := rest }
            (r.1, Event.dequeueE url depth :: Event.fetchE url :: Event.failE url :: r.2)
    else (st, [])
termination_by (env.max_pages - st.visited.length, st.to_visit.length)
decreasing_by
  all_goals first
    | (apply Prod.Lex.left
       simp only [List.length_append, List.length_cons, List.length_nil]
       omega)
    | (apply Prod.Lex.right
       simp [h])

/-- Result record returned by `crawl_site` (line 172). -/
structure SiteCrawlResult where
  domain : String
  pages_scraped : Nat
deriving Repr, DecidableEq

/-- External oracles handed to `crawl_site`. -/
structure Oracles where
  fetch : String → Option Html
  saveOk : String → Bool
  resolve : String → String → String
  rands : Nat → Rat

/-- Full outcome of one site's crawl: the returned summary, the final loop
state, and the event trace. -/
structure CrawlOutput where
  result : SiteCrawlResult
  final : CrawlState
  trace : List Event

/-- Environment of `crawl_site` (lines 117-120): the domain is the netloc of
the base URL with "www." removed (Python str.replace removes every
occurrence), joined with the oracles and the crawl bounds. -/
def siteEnv (oz : Oracles) (base_url : String) (max_pages max_depth : Nat) : CrawlEnv :=
  { fetch := oz.fetch, saveOk := oz.saveOk, resolve := oz.resolve, rands := oz.rands,
    base_url := base_url, domain := strReplace (netlocOf base_url) "www." "",
    max_pages := max_pages, max_depth := max_depth }

/-- Initial loop state of `crawl_site` (lines 122-123): empty visited set and
the frontier seeded with (base_url, 0). -/
def initState (base_url : String) : CrawlState :=
  { visited := [], to_visit := [(base_url, 0)], labels := [], rand := 0 }

/-- Embeds `crawl_site` (lines 117-172): runs the crawl loop from the seeded
frontier and returns the summary (domain and size of the final visited set,
line 172) together with the final state and the event trace. -/
def crawl_site (oz : Oracles) (base_url : String) (max_pages max_depth : Nat) : CrawlOutput :=
  let env := siteEnv oz base_url max_pages max_depth
  let r := crawlLoop env (initState base_url)
  { result := { domain := env.domain, pages_scraped := r.1.visited.length },
    final := r.1, trace := r.2 }

/-- Depths of the dequeued frontier entries, in trace order. -/
def deqDepths (t : List Event) : List Nat :=
  t.filterMap (fun e => match e with | Event.dequeueE _ d => some d | _ => none)

/-- Dequeued frontier entries (url and depth), in trace order. -/
def deqPairs (t : List Event) : List (String × Nat) :=
  t.filterMap (fun e => match e with | Event.dequeueE u d => some (u, d) | _ => none)

/-- Trace check: every enqueue event records depth `d + 1`, where `d` is the
depth of the most recently dequeued entry; the first argument is the depth
of the last dequeue seen so far. -/
def depthsOkTrace : Nat → List Event → Bool
  | _, [] => true
  | _, Event.dequeueE _ dep :: r => depthsOkTrace dep r
  | d, Event.enqueueE _ dep :: r => dep == d + 1 && depthsOkTrace d r
  | d, _ :: r => depthsOkTrace d r

/-- Trace check: no url is fetched after it has been saved; the first
argument is the set of urls saved so far. -/
def noRefetch : List String → List Event → Bool
  | _, [] => true
  | s, Event.fetchE u :: r => !(s.contains u) && noRefetch s r
  | s, Event.savedE u :: r => noRefetch (s ++ [u]) r
  | s, _ :: r => noRefetch s r

/-- Trace check for the pacing the code actually performs: after a page is
successfully processed (savedE), no further fetch is issued until a sleep
has occurred. The flag records whether fetching is currently allowed. -/
def pacedOkAux : Bool → List Event → Bool
  | ok, Event.fetchE _ :: r => ok && pacedOkAux ok r
  | _, Event.sleepE _ :: r => pacedOkAux true r
  | _, Event.savedE _ :: r => pacedOkAux false r
  | ok, _ :: r => pacedOkAux ok r
  | _, [] => true

/-- Trace check for pacing as the claim states it: after starting, every
fetch other than the first is separated from the previous fetch by a sleep.
The flag records whether a sleep has occurred since the last fetch (or that
no fetch has occurred yet). -/
def fetchPacedAux : Bool → List Event → Bool
  | ok, Event.fetchE _ :: r => ok && fetchPacedAux false r
  | _, Event.sleepE _ :: r => fetchPacedAux true r
  | ok, _ :: r => fetchPacedAux ok r
  | _, [] => true

/-- Pacing check over a whole trace, as performed by the code. -/
def pacedOkT (t : List Event) : Bool := pacedOkAux true t

/-- Pacing check over a whole trace, as the claim states it: a sleep between
every two successive fetches. -/
def fetchPacedT (t : List Event) : Bool := fetchPacedAux true t

/-- Formalises the spec phrase "has an http/https scheme" for the refinement
comparison of the link filter: the URL literally begins with "http://" or
"https://". The code's own test is `strStarts link "http"`. -/
def hasHttpScheme (u : String) : Bool := strStarts u "http://" || strStarts u "https://"

/-- Concrete page: the seed of the small test site, with nav links to /a
and /b. -/
def pageS : Html where
  title := some "S"
  h1 := none
  h2s := []
  textNodes := []
  navHrefs := ["https://e.com/a", "https://e.com/b"]

/-- Concrete page /b of the small test site, linking back to /a. -/
def pageB : Html where
  title := some "B"
  h1 := none
  h2s := []
  textNodes := []
  navHrefs := ["https://e.com/a"]

/-- Oracles of a run in which fetching /a always fails (transport error or
non-200 status) while the seed and /b succeed, and /b links to /a again. -/
def ozFailA : Oracles where
  fetch := fun u =>
    if u = "https://e.com/" then some pageS
    else if u = "https://e.com/b" then some pageB
    else none
  saveOk := fun _ => true
  resolve := fun _ href => href
  rands := fun _ => 0

/-- Concrete page with one nav link, used to build the breadth-first test
site. -/
def pageLinking (links : List String) : Html where
  title := some "t"
  h1 := none
  h2s := []
  textNodes := []
  navHrefs := links

/-- Oracles of the breadth-first test site: the seed has two depth-1
children /a and /b, and each child has one depth-2 child; every fetch
succeeds. -/
def ozBfs : Oracles where
  fetch := fun u =>
    if u = "https://e.com/" then some (pageLinking ["https://e.com/a", "https://e.com/b"])
    else if u = "https://e.com/a" then some (pageLinking ["https://e.com/a1"])
    else if u = "https://e.com/b" then some (pageLinking ["https://e.com/b1"])
    else some (pageLinking [])
  saveOk := fun _ => true
  resolve := fun _ href => href
  rands := fun _ => 0

/-- Successor state of a fully successful iteration of the crawl loop. -/
def successState (env : CrawlEnv) (st : CrawlState) (u : String) (d : Nat)
    (rest : List (String × Nat)) (html : Html) : CrawlState :=
  let info := extract_info html
  let label := pyOr (pyOr info.h1 info.title) u
  let links :=
    if d < env.max_depth then get_nav_links env.resolve html env.base_url env.domain else []
  { visited := st.visited ++ [u],
    to_visit := (enqueueGo st.visited (d + 1) links rest).1,
    labels := insertLabel st.labels label,
    rand := st.rand + 1 }

/-- Entries appended to the frontier by a fully successful iteration. -/
def successEnqueued (env : CrawlEnv) (st : CrawlState) (u : String) (d : Nat)
    (rest : List (String × Nat)) (html : Html) : List (String × Nat) :=
  let links :=
    if d < env.max_depth then get_nav_links env.resolve html env.base_url env.domain else []
  (enqueueGo st.visited (d + 1) links rest).2

/-- Invariant of a breadth-first frontier: the queue's depths are
non-decreasing and any two of them differ by at most one. -/
def DepthsOk (l : List Nat) : Prop :=
  l.Pairwise (· ≤ ·) ∧ ∀ x ∈ l, ∀ y ∈ l, x ≤ y + 1

/-- Document whose visible text is a single 10,000-character text node, used
for the truncation instance of the spec. -/
def bigDoc : Html where
  title := none
  h1 := none
  h2s := []
  textNodes := [String.mk (List.replicate 10000 'a')]
  navHrefs := []

/-- Nav region of a page used to refute the claimed link filter: one anchor
whose URL carries the target domain only in its query string, and one whose
scheme is not http/https but still starts with the letters "http". -/
def pageEvil : Html where
  title := none
  h1 := none
  h2s := []
  textNodes := []
  navHrefs := ["https://evil.com/?ref=example.com", "httpx://example.com/x"]

/-- Concrete crawl environment used by witnesses: the oracles of `ozFailA`
with the seed of the small test site and bounds 10 pages / depth 2. -/
def envFailA : CrawlEnv :=
  siteEnv ozFailA "https://e.com/" 10 2

/-- Concrete loop state whose frontier head is a url whose fetch fails. -/
def stFailX : CrawlState :=
  { visited := [], to_visit := [("https://e.com/x", 1)], labels := [], rand := 0 }

theorem crawlLoop_nil (env : CrawlEnv) (st : CrawlState) (h : st.to_visit = []) :
    crawlLoop env st = (st, []) := by
  rw [crawlLoop.eq_def, h]

theorem crawlLoop_stop (env : CrawlEnv) (st : CrawlState) (u : String) (d : Nat)
    (rest : List (String × Nat)) (h : st.to_visit = (u, d) :: rest)
    (hp : ¬ st.visited.length < env.max_pages) :
    crawlLoop env st = (st, []) := by
  rw [crawlLoop.eq_def, h]
  simp [hp]

theorem crawlLoop_skip (env : CrawlEnv) (st : CrawlState) (u : String) (d : Nat)
    (rest : List (String × Nat)) (h : st.to_visit = (u, d) :: rest)
    (hp : st.visited.length < env.max_pages) (hv : u ∈ st.visited) :
    crawlLoop env st =
      ((crawlLoop env { st with to_visit := rest }).1,
       Event.dequeueE u d :: (crawlLoop env { st with to_visit := rest }).2) := by
  rw [crawlLoop.eq_def, h]
  simp [hp, hv]

theorem crawlLoop_fetchfail (env : CrawlEnv) (st : CrawlState) (u : String) (d : Nat)
    (rest : List (String × Nat)) (h : st.to_visit = (u, d) :: rest)
    (hp : st.visited.length < env.max_pages) (hv : u ∉ st.visited)
    (hf : env.fetch u = none) :
    crawlLoop env st =
      ((crawlLoop env { st with to_visit := rest }).1,
       Event.dequeueE u d :: Event.fetchE u :: Event.failE u ::
         (crawlLoop env { st with to_visit := rest }).2) := by
  rw [crawlLoop.eq_def, h]
  simp [hp, hv, hf]

theorem crawlLoop_savefail (env : CrawlEnv) (st : CrawlState) (u : String) (d : Nat)
    (rest : List (String × Nat)) (html : Html) (h : st.to_visit = (u, d) :: rest)
    (hp : st.visited.length < env.max_pages) (hv : u ∉ st.visited)
    (hf : env.fetch u = some html) (hs : env.saveOk u = false) :
    crawlLoop env st =
      ((crawlLoop env { st with to_visit := rest }).1,
       Event.dequeueE u d :: Event.fetchE u :: Event.failE u ::
         (crawlLoop env { st with to_visit := rest }).2) := by
  rw [crawlLoop.eq_def, h]
  simp [hp, hv, hf, hs]

theorem crawlLoop_success (env : CrawlEnv) (st : CrawlState) (u : String) (d : Nat)
    (rest : List (String × Nat)) (html : Html) (h : st.to_visit = (u, d) :: rest)
    (hp : st.visited.length < env.max_pages) (hv : u ∉ st.visited)
    (hf : env.fetch u = some html) (hs : env.saveOk u = true) :
    crawlLoop env st =
      ((crawlLoop env (successState env st u d rest html)).1,
       Event.dequeueE u d :: Event.fetchE u :: Event.savedE u ::
         ((successEnqueued env st u d rest html).map (fun e => Event.enqueueE e.1 e.2) ++
          Event.sleepE (randomUniform (3 / 2) 5 (env.rands st.rand)) ::
            (crawlLoop env (successState env st u d rest html)).2)) := by
  rw [crawlLoop.eq_def, h]
  simp only [hp, hv, hf, hs, dif_pos, if_true, if_false, successState, successEnqueued]

theorem crawlLoop_visited_le (env : CrawlEnv) (st : CrawlState) :
    st.visited.length ≤ env.max_pages →
      (crawlLoop env st).1.visited.length ≤ env.max_pages := by
  induction st using crawlLoop.induct env with
  | case1 x hx =>
    intro hst
    rw [crawlLoop_nil env x hx]
    exact hst
  | case2 x url depth rest h hp hv ih =>
    intro hst
    rw [crawlLoop_skip env x url depth rest h hp hv]
    exact ih hst
  | case3 x url depth rest h hp hv hf ih =>
    intro hst
    rw [crawlLoop_fetchfail env x url depth rest h hp hv hf]
    exact ih hst
  | case4 x url depth rest h hp hv html hf hs info label links eqq ih =>
    intro _
    rw [crawlLoop_success env x url depth rest html h hp hv hf hs]
    exact ih (by simp; omega)
  | case5 x url depth rest h hp hv html hf hs ih =>
    intro hst
    rw [crawlLoop_savefail env x url depth rest html h hp hv hf (by simpa using hs)]
    exact ih hst
  | case6 x url depth rest h hp =>
    intro hst
    rw [crawlLoop_stop env x url depth rest h hp]
    exact hst

theorem crawlLoop_stops_only_when (env : CrawlEnv) (st : CrawlState) :
    (crawlLoop env st).1.to_visit = [] ∨
      env.max_pages ≤ (crawlLoop env st).1.visited.length := by
  induction st using crawlLoop.induct env with
  | case1 x hx =>
    rw [crawlLoop_nil env x hx]
    exact Or.inl hx
  | case2 x url depth rest h hp hv ih =>
    rw [crawlLoop_skip env x url depth rest h hp hv]
    exact ih
  | case3 x url depth rest h hp hv hf ih =>
    rw [crawlLoop_fetchfail env x url depth rest h hp hv hf]
    exact ih
  | case4 x url depth rest h hp hv html hf hs info label links eqq ih =>
    rw [crawlLoop_success env x url depth rest html h hp hv hf hs]
    exact ih
  | case5 x url depth rest h hp hv html hf hs ih =>
    rw [crawlLoop_savefail env x url depth rest html h hp hv hf (by simpa using hs)]
    exact ih
  | case6 x url depth rest h hp =>
    rw [crawlLoop_stop env x url depth rest h hp]
    exact Or.inr (by simp; omega)

theorem enqueueGo_spec (v : List String) (d : Nat) (ls : List String)
    (tv : List (String × Nat)) :
    (enqueueGo v d ls tv).1 = tv ++ (enqueueGo v d ls tv).2 ∧
    ∀ e ∈ (enqueueGo v d ls tv).2, e.2 = d ∧ e.1 ∈ ls := by
  induction ls generalizing tv with
  | nil => simp [enqueueGo]
  | cons link ls ih =>
    by_cases hc : link ∉ v ∧ link ∉ tv.map Prod.fst
    · simp only [enqueueGo, if_pos hc]
      obtain ⟨h1, h2⟩ := ih (tv ++ [(link, d)])
      refine ⟨by simp [h1], ?_⟩
      intro e he
      rcases List.mem_cons.mp he with he | he
      · subst he
        exact ⟨rfl, List.mem_cons_self _ _⟩
      · exact ⟨(h2 e he).1, List.mem_cons_of_mem _ (h2 e he).2⟩
    · simp only [enqueueGo, if_neg hc]
      obtain ⟨h1, h2⟩ := ih tv
      refine ⟨h1, ?_⟩
      intro e he
      exact ⟨(h2 e he).1, List.mem_cons_of_mem _ (h2 e he).2⟩

theorem successState_queue (env : CrawlEnv) (st : CrawlState) (u : String) (d : Nat)
    (rest : List (String × Nat)) (html : Html) :
    (successState env st u d rest html).to_visit =
      rest ++ successEnqueued env st u d rest html :=
  (enqueueGo_spec _ _ _ _).1

theorem successEnqueued_spec (env : CrawlEnv) (st : CrawlState) (u : String) (d : Nat)
    (rest : List (String × Nat)) (html : Html) :
    ∀ e ∈ successEnqueued env st u d rest html, e.2 = d + 1 ∧ d < env.max_depth := by
  intro e he
  unfold successEnqueued at he
  by_cases hd : d < env.max_depth
  · simp only [if_pos hd] at he
    exact ⟨((enqueueGo_spec _ _ _ _).2 e he).1, hd⟩
  · simp only [if_neg hd] at he
    simp [enqueueGo] at he

theorem noRefetch_enq (s : List String) (es : List (String × Nat)) (r : List Event) :
    noRefetch s (es.map (fun e => Event.enqueueE e.1 e.2) ++ r) = noRefetch s r := by
  induction es with
  | nil => rfl
  | cons e es ih => simpa [noRefetch] using ih

theorem pacedOkAux_enq (b : Bool) (es : List (String × Nat)) (r : List Event) :
    pacedOkAux b (es.map (fun e => Event.enqueueE e.1 e.2) ++ r) = pacedOkAux b r := by
  induction es with
  | nil => rfl
  | cons e es ih => simpa [pacedOkAux] using ih

theorem fetchPacedAux_enq (b : Bool) (es : List (String × Nat)) (r : List Event) :
    fetchPacedAux b (es.map (fun e => Event.enqueueE e.1 e.2) ++ r) = fetchPacedAux b r := by
  induction es with
  | nil => rfl
  | cons e es ih => simpa [fetchPacedAux] using ih

theorem depthsOkTrace_enq (d : Nat) (es : List (String × Nat)) (r : List Event)
    (hes : ∀ e ∈ es, e.2 = d + 1) :
    depthsOkTrace d (es.map (fun e => Event.enqueueE e.1 e.2) ++ r) = depthsOkTrace d r := by
  induction es with
  | nil => rfl
  | cons e es ih =>
    have he : e.2 = d + 1 := hes e (List.mem_cons_self _ _)
    simp [depthsOkTrace, he]
    exact ih (fun e' he' => hes e' (List.mem_cons_of_mem _ he'))

theorem deqPairs_enq (es : List (String × Nat)) (r : List Event) :
    deqPairs (es.map (fun e => Event.enqueueE e.1 e.2) ++ r) = deqPairs r := by
  induction es with
  | nil => rfl
  | cons e es ih => simpa [deqPairs] using ih

theorem deqDepths_enq (es : List (String × Nat)) (r : List Event) :
    deqDepths (es.map (fun e => Event.enqueueE e.1 e.2) ++ r) = deqDepths r := by
  induction es with
  | nil => rfl
  | cons e es ih => simpa [deqDepths] using ih

theorem crawlLoop_no_refetch (env : CrawlEnv) (st : CrawlState) :
    st.visited.Nodup →
      (crawlLoop env st).1.visited.Nodup ∧
      noRefetch st.visited (crawlLoop env st).2 = true := by
  induction st using crawlLoop.induct env with
  | case1 x hx =>
    intro hn
    rw [crawlLoop_nil env x hx]
    exact ⟨hn, rfl⟩
  | case2 x url depth rest h hp hv ih =>
    intro hn
    rw [crawlLoop_skip env x url depth rest h hp hv]
    obtain ⟨a, b⟩ := ih hn
    exact ⟨a, by simpa [noRefetch] using b⟩
  | case3 x url depth rest h hp hv hf ih =>
    intro hn
    rw [crawlLoop_fetchfail env x url depth rest h hp hv hf]
    obtain ⟨a, b⟩ := ih hn
    refine ⟨a, ?_⟩
    simpa [noRefetch, hv] using b
  | case4 x url depth rest h hp hv html hf hs info label links eqq ih =>
    intro hn
    rw [crawlLoop_success env x url depth rest html h hp hv hf hs]
    have hn2 : (x.visited ++ [url]).Nodup := by simp [List.nodup_append, hn, hv]
    obtain ⟨a, b⟩ := ih hn2
    refine ⟨a, ?_⟩
    simpa [noRefetch, hv, noRefetch_enq] using b
  | case5 x url depth rest h hp hv html hf hs ih =>
    intro hn
    rw [crawlLoop_savefail env x url depth rest html h hp hv hf (by simpa using hs)]
    obtain ⟨a, b⟩ := ih hn
    refine ⟨a, ?_⟩
    simpa [noRefetch, hv] using b
  | case6 x url depth rest h hp =>
    intro hn
    rw [crawlLoop_stop env x url depth rest h hp]
    exact ⟨hn, rfl⟩

theorem crawlLoop_paced (env : CrawlEnv) (st : CrawlState) :
    pacedOkAux true (crawlLoop env st).2 = true := by
  induction st using crawlLoop.induct env with
  | case1 x hx =>
    rw [crawlLoop_nil env x hx]
    rfl
  | case2 x url depth rest h hp hv ih =>
    rw [crawlLoop_skip env x url depth rest h hp hv]
    simpa [pacedOkAux] using ih
  | case3 x url depth rest h hp hv hf ih =>
    rw [crawlLoop_fetchfail env x url depth rest h hp hv hf]
    simpa [pacedOkAux] using ih
  | case4 x url depth rest h hp hv html hf hs info label links eqq ih =>
    rw [crawlLoop_success env x url depth rest html h hp hv hf hs]
    simpa [pacedOkAux, pacedOkAux_enq] using ih
  | case5 x url depth rest h hp hv html hf hs ih =>
    rw [crawlLoop_savefail env x url depth rest html h hp hv hf (by simpa using hs)]
    simpa [pacedOkAux] using ih
  | case6 x url depth rest h hp =>
    rw [crawlLoop_stop env x url depth rest h hp]
    rfl

theorem randomUniform_bounds (r : Rat) (h0 : 0 ≤ r) (h1 : r ≤ 1) :
    3 / 2 ≤ randomUniform (3 / 2) 5 r ∧ randomUniform (3 / 2) 5 r ≤ 5 := by
  unfold randomUniform
  constructor <;> nlinarith

theorem crawlLoop_sleep_bounds (env : CrawlEnv) (st : CrawlState)
    (hr : ∀ n, 0 ≤ env.rands n ∧ env.rands n ≤ 1) :
    ∀ q : Rat, Event.sleepE q ∈ (crawlLoop env st).2 → 3 / 2 ≤ q ∧ q ≤ 5 := by
  induction st using crawlLoop.induct env with
  | case1 x hx =>
    rw [crawlLoop_nil env x hx]
    simp
  | case2 x url depth rest h hp hv ih =>
    rw [crawlLoop_skip env x url depth rest h hp hv]
    intro q hq
    rcases List.mem_cons.mp hq with hq | hq
    · cases hq
    · exact ih q hq
  | case3 x url depth rest h hp hv hf ih =>
    rw [crawlLoop_fetchfail env x url depth rest h hp hv hf]
    intro q hq
    simp only [List.mem_cons] at hq
    rcases hq with hq | hq | hq | hq
    · cases hq
    · cases hq
    · cases hq
    · exact ih q hq
  | case4 x url depth rest h hp hv html hf hs info label links eqq ih =>
    rw [crawlLoop_success env x url depth rest html h hp hv hf hs]
    intro q hq
    simp only [List.mem_cons, List.mem_append, List.mem_map] at hq
    rcases hq with hq | hq | hq | ⟨e, _, hq⟩ | hq
    · cases hq
    · cases hq
    · cases hq
    · cases hq
    · rcases hq with hq | hq
      · cases hq
        exact randomUniform_bounds _ (hr x.rand).1 (hr x.rand).2
      · exact ih q hq
  | case5 x url depth rest h hp hv html hf hs ih =>
    rw [crawlLoop_savefail env x url depth rest html h hp hv hf (by simpa using hs)]
    intro q hq
    simp only [List.mem_cons] at hq
    rcases hq with hq | hq | hq | hq
    · cases hq
    · cases hq
    · cases hq
    · exact ih q hq
  | case6 x url depth rest h hp =>
    rw [crawlLoop_stop env x url depth rest h hp]
    simp

theorem deqPairs_dequeue (u : String) (d : Nat) (r : List Event) :
    deqPairs (Event.dequeueE u d :: r) = (u, d) :: deqPairs r := rfl

theorem deqPairs_fetch (u : String) (r : List Event) :
    deqPairs (Event.fetchE u :: r) = deqPairs r := rfl

theorem deqPairs_saved (u : String) (r : List Event) :
    deqPairs (Event.savedE u :: r) = deqPairs r := rfl

theorem deqPairs_fail (u : String) (r : List Event) :
    deqPairs (Event.failE u :: r) = deqPairs r := rfl

theorem deqPairs_sleep (v : Rat) (r : List Event) :
    deqPairs (Event.sleepE v :: r) = deqPairs r := rfl

theorem deqDepths_dequeue (u : String) (d : Nat) (r : List Event) :
    deqDepths (Event.dequeueE u d :: r) = d :: deqDepths r := rfl

theorem deqDepths_fetch (u : String) (r : List Event) :
    deqDepths (Event.fetchE u :: r) = deqDepths r := rfl

theorem deqDepths_saved (u : String) (r : List Event) :
    deqDepths (Event.savedE u :: r) = deqDepths r := rfl

theorem deqDepths_fail (u : String) (r : List Event) :
    deqDepths (Event.failE u :: r) = deqDepths r := rfl

theorem deqDepths_sleep (v : Rat) (r : List Event) :
    deqDepths (Event.sleepE v :: r) = deqDepths r := rfl

theorem crawlLoop_depthsOkTrace (env : CrawlEnv) (st : CrawlState) :
    ∀ d0, depthsOkTrace d0 (crawlLoop env st).2 = true := by
  induction st using crawlLoop.induct env with
  | case1 x hx =>
    intro d0
    rw [crawlLoop_nil env x hx]
    rfl
  | case2 x url depth rest h hp hv ih =>
    intro d0
    rw [crawlLoop_skip env x url depth rest h hp hv]
    simpa [depthsOkTrace] using ih depth
  | case3 x url depth rest h hp hv hf ih =>
    intro d0
    rw [crawlLoop_fetchfail env x url depth rest h hp hv hf]
    simpa [depthsOkTrace] using ih depth
  | case4 x url depth rest h hp hv html hf hs info label links eqq ih =>
    intro d0
    rw [crawlLoop_success env x url depth rest html h hp hv hf hs]
    have henq : ∀ e ∈ successEnqueued env x url depth rest html, e.2 = depth + 1 :=
      fun e he => (successEnqueued_spec env x url depth rest html e he).1
    simp only [depthsOkTrace]
    rw [depthsOkTrace_enq depth _ _ henq]
    simpa [depthsOkTrace] using ih depth
  | case5 x url depth rest h hp hv html hf hs ih =>
    intro d0
    rw [crawlLoop_savefail env x url depth rest html h hp hv hf (by simpa using hs)]
    simpa [depthsOkTrace] using ih depth
  | case6 x url depth rest h hp =>
    intro d0
    rw [crawlLoop_stop env x url depth rest h hp]
    rfl

theorem crawlLoop_depth_le (env : CrawlEnv) (st : CrawlState) :
    (∀ e ∈ st.to_visit, e.2 ≤ env.max_depth) →
      (∀ p ∈ deqPairs (crawlLoop env st).2, p.2 ≤ env.max_depth) ∧
      (∀ u dep, Event.enqueueE u dep ∈ (crawlLoop env st).2 → dep ≤ env.max_depth) := by
  induction st using crawlLoop.induct env with
  | case1 x hx =>
    intro _
    rw [crawlLoop_nil env x hx]
    simp [deqPairs]
  | case2 x url depth rest h hp hv ih =>
    intro hq
    rw [crawlLoop_skip env x url depth rest h hp hv]
    rw [h] at hq
    obtain ⟨a, b⟩ := ih (fun e he => hq e (List.mem_cons_of_mem _ he))
    constructor
    · intro p hp2
      rcases List.mem_cons.mp hp2 with hp2 | hp2
      · subst hp2
        exact hq (url, depth) (List.mem_cons_self _ _)
      · exact a p hp2
    · intro u dep hu
      rcases List.mem_cons.mp hu with hu | hu
      · cases hu
      · exact b u dep hu
  | case3 x url depth rest h hp hv hf ih =>
    intro hq
    rw [crawlLoop_fetchfail env x url depth rest h hp hv hf]
    rw [h] at hq
    obtain ⟨a, b⟩ := ih (fun e he => hq e (List.mem_cons_of_mem _ he))
    constructor
    · intro p hp2
      simp only [deqPairs, List.filterMap_cons] at hp2
      rcases List.mem_cons.mp hp2 with hp2 | hp2
      · subst hp2
        exact hq (url, depth) (List.mem_cons_self _ _)
      · exact a p hp2
    · intro u dep hu
      simp only [List.mem_cons] at hu
      rcases hu with hu | hu | hu | hu
      · cases hu
      · cases hu
      · cases hu
      · exact b u dep hu
  | case4 x url depth rest h hp hv html hf hs info label links eqq ih =>
    intro hq
    rw [crawlLoop_success env x url depth rest html h hp hv hf hs]
    rw [h] at hq
    have hdep : depth ≤ env.max_depth := hq (url, depth) (List.mem_cons_self _ _)
    have hq2 : ∀ e ∈ (successState env x url depth rest html).to_visit,
        e.2 ≤ env.max_depth := by
      rw [successState_queue]
      intro e he
      rcases List.mem_append.mp he with he | he
      · exact hq e (List.mem_cons_of_mem _ he)
      · obtain ⟨h1, h2⟩ := successEnqueued_spec env x url depth rest html e he
        omega
    obtain ⟨a, b⟩ := ih hq2
    constructor
    · intro p hp2
      rw [deqPairs_dequeue, deqPairs_fetch, deqPairs_saved, deqPairs_enq,
        deqPairs_sleep] at hp2
      rcases List.mem_cons.mp hp2 with hp2 | hp2
      · subst hp2
        exact hdep
      · exact a p hp2
    · intro u dep hu
      simp only [List.mem_cons, List.mem_append, List.mem_map] at hu
      rcases hu with hu | hu | hu | ⟨e, he, hu⟩ | hu
      · cases hu
      · cases hu
      · cases hu
      · cases hu
        obtain ⟨h1, h2⟩ := successEnqueued_spec env x url depth rest html e he
        omega
      · rcases hu with hu | hu
        · cases hu
        · exact b u dep hu
  | case5 x url depth rest h hp hv html hf hs ih =>
    intro hq
    rw [crawlLoop_savefail env x url depth rest html h hp hv hf (by simpa using hs)]
    rw [h] at hq
    obtain ⟨a, b⟩ := ih (fun e he => hq e (List.mem_cons_of_mem _ he))
    constructor
    · intro p hp2
      simp only [deqPairs, List.filterMap_cons] at hp2
      rcases List.mem_cons.mp hp2 with hp2 | hp2
      · subst hp2
        exact hq (url, depth) (List.mem_cons_self _ _)
      · exact a p hp2
    · intro u dep hu
      simp only [List.mem_cons] at hu
      rcases hu with hu | hu | hu | hu
      · cases hu
      · cases hu
      · cases hu
      · exact b u dep hu
  | case6 x url depth rest h hp =>
    intro _
    rw [crawlLoop_stop env x url depth rest h hp]
    simp [deqPairs]

theorem depthsOk_tail (d : Nat) (ds : List Nat) (h : DepthsOk (d :: ds)) : DepthsOk ds := by
  obtain ⟨h1, h2⟩ := h
  exact ⟨(List.pairwise_cons.mp h1).2,
    fun x hx y hy => h2 x (List.mem_cons_of_mem _ hx) y (List.mem_cons_of_mem _ hy)⟩

theorem depthsOk_step (d : Nat) (ds es : List Nat) (hok : DepthsOk (d :: ds))
    (hes : ∀ x ∈ es, x = d + 1) : DepthsOk (ds ++ es) := by
  obtain ⟨h1, h2⟩ := hok
  have hds : ds.Pairwise (· ≤ ·) := (List.pairwise_cons.mp h1).2
  have hlow : ∀ x ∈ ds, d ≤ x := (List.pairwise_cons.mp h1).1
  have hhigh : ∀ x ∈ ds, x ≤ d + 1 := fun x hx =>
    h2 x (List.mem_cons_of_mem _ hx) d (List.mem_cons_self _ _)
  have hesP : es.Pairwise (· ≤ ·) := by
    refine List.pairwise_iff_forall_sublist.mpr ?_
    intro a b hab
    have ha := hes a (hab.subset (List.mem_cons_self _ _))
    have hb := hes b (hab.subset (List.mem_cons_of_mem _ (List.mem_cons_self _ _)))
    omega
  constructor
  · rw [List.pairwise_append]
    refine ⟨hds, hesP, ?_⟩
    intro a ha b hb
    have := hhigh a ha
    have := hes b hb
    omega
  · intro x hx y hy
    have hx2 : d ≤ x ∧ x ≤ d + 1 := by
      rcases List.mem_append.mp hx with hx | hx
      · exact ⟨hlow x hx, hhigh x hx⟩
      · have := hes x hx
        omega
    have hy2 : d ≤ y ∧ y ≤ d + 1 := by
      rcases List.mem_append.mp hy with hy | hy
      · exact ⟨hlow y hy, hhigh y hy⟩
      · have := hes y hy
        omega
    omega

theorem crawlLoop_deq_lb (env : CrawlEnv) (st : CrawlState) :
    ∀ b : Nat, (∀ e ∈ st.to_visit, b ≤ e.2) →
      ∀ y ∈ deqDepths (crawlLoop env st).2, b ≤ y := by
  induction st using crawlLoop.induct env with
  | case1 x hx =>
    intro b hb
    rw [crawlLoop_nil env x hx]
    simp [deqDepths]
  | case2 x url depth rest h hp hv ih =>
    intro b hb
    rw [crawlLoop_skip env x url depth rest h hp hv, deqDepths_dequeue]
    rw [h] at hb
    intro y hy
    rcases List.mem_cons.mp hy with hy | hy
    · rw [hy]
      exact hb (url, depth) (List.mem_cons_self _ _)
    · exact ih b (fun e he => hb e (List.mem_cons_of_mem _ he)) y hy
  | case3 x url depth rest h hp hv hf ih =>
    intro b hb
    rw [crawlLoop_fetchfail env x url depth rest h hp hv hf, deqDepths_dequeue,
      deqDepths_fetch, deqDepths_fail]
    rw [h] at hb
    intro y hy
    rcases List.mem_cons.mp hy with hy | hy
    · rw [hy]
      exact hb (url, depth) (List.mem_cons_self _ _)
    · exact ih b (fun e he => hb e (List.mem_cons_of_mem _ he)) y hy
  | case4 x url depth rest h hp hv html hf hs info label links eqq ih =>
    intro b hb
    rw [crawlLoop_success env x url depth rest html h hp hv hf hs, deqDepths_dequeue,
      deqDepths_fetch, deqDepths_saved, deqDepths_enq, deqDepths_sleep]
    rw [h] at hb
    have hbd : b ≤ depth := hb (url, depth) (List.mem_cons_self _ _)
    intro y hy
    rcases List.mem_cons.mp hy with hy | hy
    · rw [hy]
      exact hbd
    · have ih2 : ∀ b : Nat,
          (∀ e ∈ (successState env x url depth rest html).to_visit, b ≤ e.2) →
          ∀ y ∈ deqDepths (crawlLoop env (successState env x url depth rest html)).2,
            b ≤ y := ih
      refine ih2 b ?_ y hy
      rw [successState_queue]
      intro e he
      rcases List.mem_append.mp he with he | he
      · exact hb e (List.mem_cons_of_mem _ he)
      · have := (successEnqueued_spec env x url depth rest html e he).1
        omega
  | case5 x url depth rest h hp hv html hf hs ih =>
    intro b hb
    rw [crawlLoop_savefail env x url depth rest html h hp hv hf (by simpa using hs),
      deqDepths_dequeue, deqDepths_fetch, deqDepths_fail]
    rw [h] at hb
    intro y hy
    rcases List.mem_cons.mp hy with hy | hy
    · rw [hy]
      exact hb (url, depth) (List.mem_cons_self _ _)
    · exact ih b (fun e he => hb e (List.mem_cons_of_mem _ he)) y hy
  | case6 x url depth rest h hp =>
    intro b hb
    rw [crawlLoop_stop env x url depth rest h hp]
    simp [deqDepths]

theorem crawlLoop_deq_sorted (env : CrawlEnv) (st : CrawlState) :
    DepthsOk (st.to_visit.map Prod.snd) →
      (deqDepths (crawlLoop env st).2).Pairwise (· ≤ ·) := by
  induction st using crawlLoop.induct env with
  | case1 x hx =>
    intro _
    rw [crawlLoop_nil env x hx]
    simp [deqDepths]
  | case2 x url depth rest h hp hv ih =>
    intro hok
    rw [crawlLoop_skip env x url depth rest h hp hv, deqDepths_dequeue]
    rw [h] at hok
    simp only [List.map_cons] at hok
    refine List.pairwise_cons.mpr ⟨?_, ih (depthsOk_tail _ _ hok)⟩
    intro y hy
    refine crawlLoop_deq_lb env _ depth ?_ y hy
    intro e he
    exact (List.pairwise_cons.mp hok.1).1 e.2 (List.mem_map_of_mem _ he)
  | case3 x url depth rest h hp hv hf ih =>
    intro hok
    rw [crawlLoop_fetchfail env x url depth rest h hp hv hf, deqDepths_dequeue,
      deqDepths_fetch, deqDepths_fail]
    rw [h] at hok
    simp only [List.map_cons] at hok
    refine List.pairwise_cons.mpr ⟨?_, ih (depthsOk_tail _ _ hok)⟩
    intro y hy
    refine crawlLoop_deq_lb env _ depth ?_ y hy
    intro e he
    exact (List.pairwise_cons.mp hok.1).1 e.2 (List.mem_map_of_mem _ he)
  | case4 x url depth rest h hp hv html hf hs info label links eqq ih =>
    intro hok
    rw [crawlLoop_success env x url depth rest html h hp hv hf hs, deqDepths_dequeue,
      deqDepths_fetch, deqDepths_saved, deqDepths_enq, deqDepths_sleep]
    rw [h] at hok
    simp only [List.map_cons] at hok
    have hq2 : DepthsOk ((successState env x url depth rest html).to_visit.map Prod.snd) := by
      rw [successState_queue, List.map_append]
      refine depthsOk_step depth _ _ hok ?_
      intro y hy
      obtain ⟨e, he, hey⟩ := List.mem_map.mp hy
      rw [← hey]
      exact (successEnqueued_spec env x url depth rest html e he).1
    refine List.pairwise_cons.mpr ⟨?_, ih hq2⟩
    intro y hy
    refine crawlLoop_deq_lb env _ depth ?_ y hy
    rw [successState_queue]
    intro e he
    rcases List.mem_append.mp he with he | he
    · exact (List.pairwise_cons.mp hok.1).1 e.2 (List.mem_map_of_mem _ he)
    · have := (successEnqueued_spec env x url depth rest html e he).1
      omega
  | case5 x url depth rest h hp hv html hf hs ih =>
    intro hok
    rw [crawlLoop_savefail env x url depth rest html h hp hv hf (by simpa using hs),
      deqDepths_dequeue, deqDepths_fetch, deqDepths_fail]
    rw [h] at hok
    simp only [List.map_cons] at hok
    refine List.pairwise_cons.mpr ⟨?_, ih (depthsOk_tail _ _ hok)⟩
    intro y hy
    refine crawlLoop_deq_lb env _ depth ?_ y hy
    intro e he
    exact (List.pairwise_cons.mp hok.1).1 e.2 (List.mem_map_of_mem _ he)
  | case6 x url depth rest h hp =>
    intro _
    rw [crawlLoop_stop env x url depth rest h hp]
    simp [deqDepths]

theorem is_valid_link_iff (link domain : String) :
    is_valid_link link domain = true ↔
      strStarts link "http" = true ∧ strHasSub link domain = true ∧
      ∀ x ∈ ["#", "/wp-login", "/cart", "/checkout", "/account"],
        strHasSub link x = false := by
  unfold is_valid_link
  split_ifs with h1 h2 h3 <;> simp_all [List.any_eq_true]
  intro c1 c2 c3 c4
  rcases h3 with h | h | h | h | h <;> simp_all

theorem get_nav_links_mem_aux (resolve : String → String → String) (base domain : String)
    (hrefs : List String) (acc : List String) (u : String) :
    (u ∈ hrefs.foldl
        (fun acc href =>
          let full := resolve base href
          if is_valid_link full domain ∧ full ∉ acc then acc ++ [full] else acc)
        acc) ↔
      u ∈ acc ∨
        ((∃ href ∈ hrefs, resolve base href = u) ∧ is_valid_link u domain = true) := by
  induction hrefs generalizing acc with
  | nil => simp
  | cons href hrefs ih =>
    simp only [List.foldl_cons]
    by_cases hc : is_valid_link (resolve base href) domain ∧ resolve base href ∉ acc
    · rw [if_pos hc]
      rw [ih]
      constructor
      · rintro (hu | hu)
        · rcases List.mem_append.mp hu with hu | hu
          · exact Or.inl hu
          · rcases List.mem_singleton.mp hu with rfl
            exact Or.inr ⟨⟨href, List.mem_cons_self _ _, rfl⟩, hc.1⟩
        · exact Or.inr ⟨⟨hu.1.choose, List.mem_cons_of_mem _ hu.1.choose_spec.1,
            hu.1.choose_spec.2⟩, hu.2⟩
      · rintro (hu | ⟨⟨h0, hm, hr⟩, hval⟩)
        · exact Or.inl (List.mem_append_left _ hu)
        · rcases List.mem_cons.mp hm with rfl | hm
          · exact Or.inl (List.mem_append_right _ (by simp [hr]))
          · exact Or.inr ⟨⟨h0, hm, hr⟩, hval⟩
    · rw [if_neg hc]
      rw [ih]
      constructor
      · rintro (hu | hu)
        · exact Or.inl hu
        · exact Or.inr ⟨⟨hu.1.choose, List.mem_cons_of_mem _ hu.1.choose_spec.1,
            hu.1.choose_spec.2⟩, hu.2⟩
      · rintro (hu | ⟨⟨h0, hm, hr⟩, hval⟩)
        · exact Or.inl hu
        · rcases List.mem_cons.mp hm with rfl | hm
          · rw [hr] at hc
            rcases not_and_or.mp hc with hc | hc
            · exact absurd hval hc
            · exact Or.inl (not_not.mp hc)
          · exact Or.inr ⟨⟨h0, hm, hr⟩, hval⟩

theorem get_nav_links_mem (resolve : String → String → String) (html : Html)
    (base domain u : String) :
    u ∈ get_nav_links resolve html base domain ↔
      (∃ href ∈ html.navHrefs, resolve base href = u) ∧
        is_valid_link u domain = true := by
  unfold get_nav_links
  rw [get_nav_links_mem_aux]
  simp

theorem extract_info_title (html : Html) :
    (extract_info html).title = (html.title.map pyStrip).getD "" := by
  unfold extract_info
  cases html.title <;> rfl

theorem extract_info_h1 (html : Html) :
    (extract_info html).h1 = (html.h1.map pyStrip).getD "" := by
  unfold extract_info
  cases html.h1 <;> rfl

theorem dropWhile_not_ws_replicate (n : Nat) :
    (List.replicate n 'a').dropWhile Char.isWhitespace = List.replicate n 'a' := by
  cases n with
  | zero => rfl
  | succ n =>
    rw [List.replicate_succ, List.dropWhile_cons]
    simp

theorem trimWs_replicate (n : Nat) :
    trimWs (List.replicate n 'a') = List.replicate n 'a' := by
  unfold trimWs
  rw [dropWhile_not_ws_replicate, List.reverse_replicate, dropWhile_not_ws_replicate,
    List.reverse_replicate]

theorem soupGetText_bigDoc_length : (soupGetText bigDoc).length = 10000 := by
  unfold soupGetText bigDoc
  simp only [List.map_cons, List.map_nil]
  rw [trimWs_replicate]
  rw [List.filter_cons_of_pos (by
    refine decide_eq_true ?_
    intro h
    have hlen := congrArg List.length h
    rw [List.length_replicate, List.length_nil] at hlen
    omega)]
  rw [List.filter_nil]
  show (List.replicate 10000 'a').length = 10000
  exact List.length_replicate 10000 'a'

/-- C1 (amended): only successfully processed pages are inserted into the
VisitedSet, so the visited list stays duplicate-free and no URL is fetched
again after it has been successfully fetched and saved; a URL whose fetch
failed is NOT marked visited and may be fetched again (see the
counterexample). -/
theorem crawl_success_dedup (oz : Oracles) (base_url : String) (mp md : Nat) :
    noRefetch [] (crawl_site oz base_url mp md).trace = true ∧
    (crawl_site oz base_url mp md).final.visited.Nodup := by
  obtain ⟨a, b⟩ :=
    crawlLoop_no_refetch (siteEnv oz base_url mp md) (initState base_url) List.nodup_nil
  exact ⟨b, a⟩

set_option maxRecDepth 100000 in
/-- C1 counterexample: in the crawl of `ozFailA` the url
"https://e.com/a" is dequeued and fetched, its fetch fails, the url is not
marked visited, it is re-discovered from page /b, and it is fetched a second
time — refuting "once a dequeued URL has been fetched ... that URL is a
member of the site's VisitedSet from that point on, and consequently no URL
is ever fetched twice". -/
theorem crawl_refetch_counterexample :
    ((crawl_site ozFailA "https://e.com/" 10 2).trace.filter
        (· = Event.fetchE "https://e.com/a")).length = 2 ∧
    "https://e.com/a" ∉ (crawl_site ozFailA "https://e.com/" 10 2).final.visited := by
  constructor <;>
    simp [crawl_site, siteEnv, initState, crawlLoop, ozFailA, pageS, pageB, get_nav_links,
      is_valid_link, enqueueGo, extract_info, pyOr, insertLabel, netlocOf, afterSchemeMarker,
      firstMatches, strReplace, replaceL, replaceFuel, strStarts, strHasSub, hasSub,
      randomUniform, List.filter]

/-- C2: at termination the visited set holds at most max_pages urls, and the
returned SiteCrawlResult reports exactly the size of the visited set
together with the site's domain (the netloc of the base URL with "www."
removed). -/
theorem crawl_site_budget (oz : Oracles) (base_url : String) (mp md : Nat)
    (hmp : 0 < mp) :
    (crawl_site oz base_url mp md).final.visited.length ≤ mp ∧
    (crawl_site oz base_url mp md).result.pages_scraped =
      (crawl_site oz base_url mp md).final.visited.length ∧
    (crawl_site oz base_url mp md).result.domain =
      strReplace (netlocOf base_url) "www." "" := by
  refine ⟨?_, rfl, rfl⟩
  have h := crawlLoop_visited_le (siteEnv oz base_url mp md) (initState base_url)
    (by simp [initState])
  exact h

/-- Witness for C2 at a concrete crawl. -/
theorem crawl_site_budget_witness :
    0 < 10 ∧
    ((crawl_site ozFailA "https://e.com/" 10 2).final.visited.length ≤ 10 ∧
     (crawl_site ozFailA "https://e.com/" 10 2).result.pages_scraped =
       (crawl_site ozFailA "https://e.com/" 10 2).final.visited.length ∧
     (crawl_site ozFailA "https://e.com/" 10 2).result.domain =
       strReplace (netlocOf "https://e.com/") "www." "") :=
  ⟨by decide, crawl_site_budget ozFailA "https://e.com/" 10 2 (by decide)⟩

/-- C3: every frontier entry enqueued while processing a page at depth d has
depth exactly d + 1 (checked against the most recent dequeue event), no
entry with depth greater than max_depth is ever enqueued, and every
dequeued entry has depth at most max_depth. -/
theorem crawl_depth_bounds (oz : Oracles) (base_url : String) (mp md : Nat) :
    depthsOkTrace 0 (crawl_site oz base_url mp md).trace = true ∧
    (∀ p ∈ deqPairs (crawl_site oz base_url mp md).trace, p.2 ≤ md) ∧
    (∀ u dep, Event.enqueueE u dep ∈ (crawl_site oz base_url mp md).trace → dep ≤ md) := by
  have h1 := crawlLoop_depthsOkTrace (siteEnv oz base_url mp md) (initState base_url) 0
  have h2 := crawlLoop_depth_le (siteEnv oz base_url mp md) (initState base_url)
    (by simp [initState])
  exact ⟨h1, h2.1, h2.2⟩

set_option maxRecDepth 100000 in
/-- C4: the FIFO frontier yields breadth-first order — in every crawl the
sequence of depths of dequeued entries is non-decreasing; concretely, for a
seed with two depth-1 children /a and /b each having one depth-2 child and
max_depth = 2, both /a and /b are dequeued before either child. -/
theorem crawl_bfs_order :
    (∀ (oz : Oracles) (base_url : String) (mp md : Nat),
      (deqDepths (crawl_site oz base_url mp md).trace).Pairwise (· ≤ ·)) ∧
    deqPairs (crawl_site ozBfs "https://e.com/" 10 2).trace =
      [("https://e.com/", 0), ("https://e.com/a", 1), ("https://e.com/b", 1),
       ("https://e.com/a1", 2), ("https://e.com/b1", 2)] := by
  constructor
  · intro oz base_url mp md
    refine crawlLoop_deq_sorted (siteEnv oz base_url mp md) (initState base_url) ?_
    refine ⟨by simp [initState], ?_⟩
    intro x hx y hy
    simp [initState] at hx hy
    omega
  · simp [crawl_site, siteEnv, initState, crawlLoop, ozBfs, pageLinking, get_nav_links,
      is_valid_link, enqueueGo, extract_info, pyOr, insertLabel, netlocOf, afterSchemeMarker,
      firstMatches, strReplace, replaceL, replaceFuel, strStarts, strHasSub, hasSub,
      randomUniform, deqPairs]

/-- C5 (amended): the Link Extractor returns exactly the resolved nav-region
anchors that (a) start with the literal prefix "http" (not necessarily an
http/https scheme), (b) contain the domain as a substring anywhere in the
URL (not necessarily in the host), and (c) contain none of the five banned
substrings. -/
theorem get_nav_links_characterization (resolve : String → String → String) (html : Html)
    (base domain u : String) :
    u ∈ get_nav_links resolve html base domain ↔
      (∃ href ∈ html.navHrefs, resolve base href = u) ∧
      strStarts u "http" = true ∧ strHasSub u domain = true ∧
      ∀ x ∈ ["#", "/wp-login", "/cart", "/checkout", "/account"],
        strHasSub u x = false := by
  rw [get_nav_links_mem, is_valid_link_iff]

/-- C5 counterexample: the extractor accepts a URL whose host does not
contain the domain (the domain appears only in the query string), and a URL
that has no http/https scheme — refuting "exactly those absolute URLs ...
the URL has an http/https scheme; the URL's host contains the domain". -/
theorem nav_links_filter_counterexample :
    ("https://evil.com/?ref=example.com" ∈
        get_nav_links (fun _ href => href) pageEvil "https://example.com/" "example.com" ∧
      strHasSub (netlocOf "https://evil.com/?ref=example.com") "example.com" = false) ∧
    ("httpx://example.com/x" ∈
        get_nav_links (fun _ href => href) pageEvil "https://example.com/" "example.com" ∧
      hasHttpScheme "httpx://example.com/x" = false) := by decide

/-- C6: a failure on a single page (transport error or non-2xx status,
modelled by fetch = none, or an artifact-write failure, modelled by
saveOk = false) is local to its frontier entry: the crawl continues exactly
as if that entry had been dropped, and in every crawl the loop stops only
when the frontier is exhausted or the page budget is reached. -/
theorem crawl_failure_local (env : CrawlEnv) (st : CrawlState) (u : String) (d : Nat)
    (rest : List (String × Nat)) (hst : st.to_visit = (u, d) :: rest)
    (hv : u ∉ st.visited) (hfail : env.fetch u = none ∨ env.saveOk u = false) :
    (crawlLoop env st).1.visited = (crawlLoop env { st with to_visit := rest }).1.visited ∧
    ∀ st' : CrawlState,
      (crawlLoop env st').1.to_visit = [] ∨
        env.max_pages ≤ (crawlLoop env st').1.visited.length := by
  refine ⟨?_, fun st' => crawlLoop_stops_only_when env st'⟩
  by_cases hp : st.visited.length < env.max_pages
  · rcases hfail with hf | hs
    · rw [crawlLoop_fetchfail env st u d rest hst hp hv hf]
    · rcases hfe : env.fetch u with _ | html
      · rw [crawlLoop_fetchfail env st u d rest hst hp hv hfe]
      · rw [crawlLoop_savefail env st u d rest html hst hp hv hfe hs]
  · rw [crawlLoop_stop env st u d rest hst hp]
    cases hrest : rest with
    | nil =>
      rw [crawlLoop_nil env { st with to_visit := ([] : List (String × Nat)) } rfl]
    | cons e rs =>
      rw [crawlLoop_stop env { st with to_visit := e :: rs } e.1 e.2 rs rfl
        (by simpa using hp)]

/-- Witness for C6 at a concrete environment and state. -/
theorem crawl_failure_local_witness :
    stFailX.to_visit = ("https://e.com/x", 1) :: [] ∧
    "https://e.com/x" ∉ stFailX.visited ∧
    (envFailA.fetch "https://e.com/x" = none ∨ envFailA.saveOk "https://e.com/x" = false) ∧
    ((crawlLoop envFailA stFailX).1.visited =
       (crawlLoop envFailA { stFailX with to_visit := [] }).1.visited ∧
     ∀ st' : CrawlState,
       (crawlLoop envFailA st').1.to_visit = [] ∨
         envFailA.max_pages ≤ (crawlLoop envFailA st').1.visited.length) :=
  ⟨rfl, by simp [stFailX], Or.inl (by decide),
    crawl_failure_local envFailA stFailX "https://e.com/x" 1 [] rfl (by simp [stFailX])
      (Or.inl (by decide))⟩

/-- C7: the parsed record's text_snippet is the visible text (every node
stripped, joined with single spaces) cut to at most 500 raw characters —
exactly 500 when the text is at least 500 characters long, as on the
10,000-character document `bigDoc`; secondary headings are the first five
h2 texts, trimmed, in document order; and an absent title or h1 element
yields the empty string. -/
theorem extract_info_spec :
    (∀ html : Html,
      (extract_info html).text_snippet = strTake 500 (soupGetText html) ∧
      (extract_info html).text_snippet.length = min 500 (soupGetText html).length ∧
      (extract_info html).h2s = (html.h2s.map pyStrip).take 5 ∧
      (extract_info html).h2s.length ≤ 5 ∧
      (extract_info html).title = (html.title.map pyStrip).getD "" ∧
      (extract_info html).h1 = (html.h1.map pyStrip).getD "") ∧
    (soupGetText bigDoc).length = 10000 ∧
    (extract_info bigDoc).text_snippet.length = 500 := by
  have hgen : ∀ html : Html,
      (extract_info html).text_snippet = strTake 500 (soupGetText html) ∧
      (extract_info html).text_snippet.length = min 500 (soupGetText html).length ∧
      (extract_info html).h2s = (html.h2s.map pyStrip).take 5 ∧
      (extract_info html).h2s.length ≤ 5 ∧
      (extract_info html).title = (html.title.map pyStrip).getD "" ∧
      (extract_info html).h1 = (html.h1.map pyStrip).getD "" := by
    intro html
    refine ⟨rfl, ?_, rfl, ?_, extract_info_title html, extract_info_h1 html⟩
    · show (strTake 500 (soupGetText html)).length = _
      unfold strTake
      show (List.take 500 (soupGetText html).data).length = _
      rw [List.length_take]
      rfl
    · show ((html.h2s.map pyStrip).take 5).length ≤ 5
      rw [List.length_take]
      omega
  refine ⟨hgen, soupGetText_bigDoc_length, ?_⟩
  have h := (hgen bigDoc).2.1
  rw [soupGetText_bigDoc_length] at h
  simpa using h

/-- C8 (code bug): the derived artifact name for the normalized seed URL
"https://example.com/" is the empty string, not "home": the `or "home"`
fallback fires before the surrounding slashes are stripped, so the residual
"/" is truthy and strips to "". The fallback only triggers for a URL with no
trailing slash, and the page artifacts of the seed are written to the
dot-files ".html"/".json". -/
theorem seed_filename_not_home :
    filename_base "example.com" "https://example.com/" = "" ∧
    filename_base "example.com" "https://example.com" = "home" ∧
    html_path "example.com" "https://example.com/" =
      "competitor-scrape/raw_pages/example.com/.html" ∧
    json_path "example.com" "https://example.com/" =
      "competitor-scrape/raw_pages/example.com/.json" := by decide

/-- C9 (amended): the pacing delay of random.uniform(1.5, 5.0) is enforced
after every successfully processed page and before the next fetch, and every
sleep duration lies in [1.5, 5]; a frontier entry whose fetch or save failed
proceeds to the next entry with no delay (see the counterexample), and a
skipped entry incurs neither fetch nor delay. -/
theorem crawl_pacing_after_success (oz : Oracles) (base_url : String) (mp md : Nat)
    (hr : ∀ n, 0 ≤ oz.rands n ∧ oz.rands n ≤ 1) :
    pacedOkT (crawl_site oz base_url mp md).trace = true ∧
    ∀ q : Rat, Event.sleepE q ∈ (crawl_site oz base_url mp md).trace →
      3 / 2 ≤ q ∧ q ≤ 5 := by
  constructor
  · exact crawlLoop_paced (siteEnv oz base_url mp md) (initState base_url)
  · exact crawlLoop_sleep_bounds (siteEnv oz base_url mp md) (initState base_url) hr

/-- Witness for C9's amended pacing theorem at a concrete crawl. -/
theorem crawl_pacing_after_success_witness :
    (∀ n, 0 ≤ ozFailA.rands n ∧ ozFailA.rands n ≤ 1) ∧
    (pacedOkT (crawl_site ozFailA "https://e.com/" 10 2).trace = true ∧
     ∀ q : Rat, Event.sleepE q ∈ (crawl_site ozFailA "https://e.com/" 10 2).trace →
       3 / 2 ≤ q ∧ q ≤ 5) :=
  ⟨fun n => ⟨by norm_num [ozFailA], by norm_num [ozFailA]⟩,
   crawl_pacing_after_success ozFailA "https://e.com/" 10 2
     (fun n => ⟨by norm_num [ozFailA], by norm_num [ozFailA]⟩)⟩

set_option maxRecDepth 100000 in
/-- C9 counterexample: in the crawl of `ozFailA` the failed fetch of /a is
followed by the fetch of /b with no sleep in between, refuting "every
processed frontier entry that performed a network fetch (whether it
succeeded or failed) is followed by such a delay before the next entry's
fetch". -/
theorem pacing_missing_after_failure :
    fetchPacedT (crawl_site ozFailA "https://e.com/" 10 2).trace = false := by
  simp [crawl_site, siteEnv, initState, crawlLoop, ozFailA, pageS, pageB, get_nav_links,
    is_valid_link, enqueueGo, extract_info, pyOr, insertLabel, netlocOf, afterSchemeMarker,
    firstMatches, strReplace, replaceL, replaceFuel, strStarts, strHasSub, hasSub,
    randomUniform, fetchPacedT, fetchPacedAux]

/-- C10: the artifact naming scheme is not injective — two distinct URLs on
the same host collide on the same filesystem-safe name, so their html and
json artifact paths coincide and the later page overwrites the earlier one. -/
theorem filename_collision :
    ∃ u1 u2 : String, u1 ≠ u2 ∧
      netlocOf u1 = "example.com" ∧ netlocOf u2 = "example.com" ∧
      filename_base "example.com" u1 = filename_base "example.com" u2 ∧
      html_path "example.com" u1 = html_path "example.com" u2 ∧
      json_path "example.com" u1 = json_path "example.com" u2 :=
  ⟨"https://example.com/a/b", "https://example.com/a_b", by decide⟩

example : safe_filename "/a/b" = "a_b" := by decide

example : filename_base "example.com" "https://example.com/a/b" = "a_b" := by decide

example : filename_base "example.com" "https://example.com/a_b" = "a_b" := by decide

example : filename_base "example.com" "https://example.com/" = "" := by decide

example : filename_base "example.com" "https://example.com" = "home" := by decide

example : netlocOf "https://evil.com/?ref=example.com" = "evil.com" := by decide

end Crawler

